import Mathlib

/-!
Verification development for `pennylane-lightning-gpu`
(`src/pennylane_lightning_gpu/lightning_gpu.py`): a shallow embedding of the
`LightningGPU` device methods (`adjoint_jacobian`, `expval`, `var`, `apply`,
`sample`, `_apply_state_vector_GPU`) together with theorems about them.
Numeric scalars are modelled exactly: rationals for amplitudes, integers for
Jacobian entries; the native cuQuantum kernels, which live outside the Python
source, are abstracted as oracle functions or, where the specification
describes them, modelled from the specification.
-/

set_option autoImplicit false

namespace LGPU

/-- Complex scalar (re, im) over exact rationals. -/
abbrev Amp := ℚ × ℚ

/-- A tape operation as seen by `lightning_gpu.py`: name, wires, inverse flag,
parameters, plus the class facts the Python code queries with `isinstance`
(`Rot`, `QubitStateVector`, `BasisState`, `Operation`) and the dense matrix
`qml.matrix(o)` supplied by the framework. -/
structure Op where
  name : String
  baseName : String
  numParams : Nat
  isRot : Bool
  isQSV : Bool
  isBasisState : Bool
  isOperation : Bool
  inverse : Bool
  parameters : List ℚ
  wires : List Nat
  matrix : List (List Amp)
  deriving DecidableEq, Repr

/-- `isinstance(op, (BasisState, QubitStateVector))`. -/
def Op.isStatePrep (o : Op) : Bool := o.isQSV || o.isBasisState

/-- Measurement return types (`pennylane.measurements`). -/
inductive RetType
  | expectation | state | probability | sample | variance
  deriving DecidableEq, Repr

/-- Class facts of a non-tensor observable queried by `isinstance`. -/
structure BaseObs where
  isProjector : Bool
  isHermitian : Bool
  deriving DecidableEq, Repr

/-- A measured observable: plain, or a `Tensor` with its `non_identity_obs`. -/
inductive MeasObs
  | simple (o : BaseObs)
  | tensor (os : List BaseObs)
  deriving DecidableEq, Repr

structure Measurement where
  returnType : RetType
  obs : MeasObs
  /-- Modelled from the spec: `_serialize_observables` (repository file
  `_serialize.py`, not under src/) expands every logical observable into a flat
  run of term rows; `terms` is the list of term ids this observable expands to
  (one entry for a plain observable, `k` entries for a `k`-term Hamiltonian). -/
  terms : List Nat
  deriving DecidableEq, Repr

/-- The tape data `adjoint_jacobian` consumes.  `getOp` is the external
framework accessor `tape.get_operation(op_idx)`: the operation owning the
`op_idx`-th trainable parameter. -/
structure Tape where
  operations : List Op
  measurements : List Measurement
  trainable_params : List Int
  getOp : Nat → Op

/-- Errors surfaced by the adjoint path: `QuantumFunctionError` or a
Python/numpy `ValueError`. -/
inductive AdjErr
  | qfe (msg : String)
  | valueError (msg : String)
  deriving DecidableEq, Repr

/-- Observable admissibility inside `_check_adjdiff_supported_measurements`. -/
def measObsOk (o : MeasObs) : Except AdjErr Unit :=
  match o with
  | .simple b =>
    if b.isProjector then
      .error (.qfe "Adjoint differentiation method does not support the Projector observable")
    else if b.isHermitian then
      .error (.qfe "LightningGPU adjoint differentiation method does not currently support the Hermitian observable")
    else .ok ()
  | .tensor os =>
    if os.any (·.isProjector) then
      .error (.qfe "Adjoint differentiation method does not support the Projector observable")
    else if os.any (·.isHermitian) then
      .error (.qfe "LightningGPU adjoint differentiation method does not currently support the Hermitian observable")
    else .ok ()

def measObsListOk : List Measurement → Except AdjErr Unit
  | [] => .ok ()
  | m :: rest =>
    match measObsOk m.obs with
    | .error e => .error e
    | .ok _ => measObsListOk rest

/-- `LightningGPU._check_adjdiff_supported_measurements` (lines 527-568). -/
def check_adjdiff_supported_measurements : List Measurement → Except AdjErr (Option RetType)
  | [] => .ok none
  | m :: rest =>
    if (m :: rest).length = 1 ∧ m.returnType = .state then
      .error (.qfe "Not supported")
    else if ¬ ((m :: rest).all (fun x => x.returnType = .expectation)) then
      .error (.qfe "Adjoint differentiation method does not support expectation return type mixed with other return types")
    else
      match measObsListOk (m :: rest) with
      | .error e => .error e
      | .ok _ => .ok (some .expectation)

/-- `LightningGPU._check_adjdiff_supported_operations` (lines 570-585). -/
def check_adjdiff_supported_operations : List Op → Except AdjErr Unit
  | [] => .ok ()
  | op :: rest =>
    if 1 < op.numParams ∧ op.isRot = false then
      .error (.qfe "operation not supported using the adjoint differentiation method")
    else check_adjdiff_supported_operations rest

/-- Modelled from the spec: the flattened serialized-term list returned by
`_serialize_observables` (repository file `_serialize.py`, not under src/). -/
def serializeObservables (t : Tape) : List Nat :=
  (t.measurements.map (fun m => m.terms)).flatten

/-- Cumulative offsets of a list of run lengths, starting at `start`. -/
def offsetsFrom (start : Nat) : List Nat → List Nat
  | [] => [start]
  | k :: ks => start :: offsetsFrom (start + k) ks

/-- Modelled from the spec: the offsets array returned by
`_serialize_observables` -- for each logical observable slot the half-open row
range it occupies in the flattened term list. -/
def obsOffsets (t : Tape) : List Nat :=
  offsetsFrom 0 (t.measurements.map (fun m => m.terms.length))

/-- Modelled from the spec: the `use_sp` flag returned by `_serialize_ops`
(repository file `_serialize.py`, not under src/) -- whether the tape's first
operation is a state preparation, in which case the remaining trainable
indices are shifted down by one. -/
def useSp (t : Tape) : Bool :=
  match t.operations with
  | [] => false
  | o :: _ => o.isStatePrep

/-- Python `sorted(tape.trainable_params)` (line 624). -/
def sortedTrainable (t : Tape) : List Int :=
  t.trainable_params.insertionSort (· ≤ ·)

/-- `tp_shift` before the `use_sp` shift: trainable positions whose owning
operation is an `Operation` and not a state preparation (lines 630-639). -/
def filteredTp (t : Tape) : List Int :=
  (sortedTrainable t).enum.filterMap (fun p =>
    if (t.getOp p.1).isOperation = true ∧ (t.getOp p.1).isStatePrep = false then
      some p.2
    else none)

/-- `all_params`: incremented once for every trainable parameter, state
preparations included (lines 630-639). -/
def allParamsOf (t : Tape) : Nat := (sortedTrainable t).length

/-- `tp_shift` after the `use_sp` down-shift (lines 641-644). -/
def tpShiftOf (t : Tape) : List Int :=
  if useSp t then (filteredTp t).map (fun i => i - 1) else filteredTp t

/-- `self._batch_obs : Union[bool, int]`. -/
inductive BatchObs
  | flag (b : Bool)
  | cap (k : Int)
  deriving DecidableEq, Repr

/-- Python truthiness of `self._batch_obs`. -/
def BatchObs.truthy : BatchObs → Bool
  | .flag b => b
  | .cap k => k != 0

def ceilDiv (n s : Nat) : Nat := (n + s - 1) / s

/-- Chunk start indices, Python `range(0, numObs, step)`: `ValueError` for a
zero step, empty for a negative step. -/
def chunkStarts (numObs : Nat) (step : Int) : Except AdjErr (List Nat) :=
  if step = 0 then .error (.valueError "range() arg 3 must not be zero")
  else if step < 0 then .ok []
  else .ok ((List.range (ceilDiv numObs step.toNat)).map (fun i => i * step.toNat))

/-- Python list slice `l[a:b]` for `0 ≤ a ≤ b`. -/
def pySlice {α : Type} (l : List α) (a b : Nat) : List α := (l.drop a).take (b - a)

/-- Modelled from the spec: both native kernels (`adj.adjoint_jacobian` and
`adj.adjoint_jacobian_batched`, C++ code of this repository not under src/)
return one Jacobian row per serialized observable, and the per-observable row
is the same deterministic function `rowFor` of the observable in both entry
points (the spec's batch-invariance property). -/
def backendRows (rowFor : Nat → List Int) (obs : List Nat) : List (List Int) :=
  obs.map rowFor

/-- Effects performed by `adjoint_jacobian`, in order. -/
inductive AdjEffect
  | reset
  | execute
  | serializeObsEff
  | serializeOpsEff
  | backendCall (obs : List Nat) (tp : List Int)
  deriving DecidableEq, Repr

/-- The observable-batching dispatch of `adjoint_jacobian` (lines 655-678). -/
def dispatchJac (totalDevices : Nat) (b : BatchObs) (rowFor : Nat → List Int)
    (obsSer : List Nat) (tp : List Int) :
    Except AdjErr (List AdjEffect × List (List Int)) :=
  if b.truthy then
    let numObs := obsSer.length
    let batchSize : Int :=
      match b with
      | .flag _ => (numObs : Int)
      | .cap k => k * (totalDevices : Int)
    match chunkStarts numObs batchSize with
    | .error e => .error e
    | .ok starts =>
      let chunks := starts.map (fun c => pySlice obsSer c (c + batchSize.toNat))
      .ok (chunks.map (fun ch => AdjEffect.backendCall ch tp),
           (chunks.map (fun ch => backendRows rowFor ch)).flatten)
  else
    .ok ([AdjEffect.backendCall obsSer tp], backendRows rowFor obsSer)

/-- Split a flat list into consecutive rows of length `t` (`fuel` bounds the
recursion; `fuel = l.length` always suffices for `1 ≤ t`). -/
def chunksOfAux (t : Nat) : Nat → List ℤ → List (List ℤ)
  | _, [] => []
  | 0, _ :: _ => []
  | fuel + 1, x :: xs => (x :: xs).take t :: chunksOfAux t fuel ((x :: xs).drop t)

/-- Split a flat list into consecutive rows of length `t`. -/
def chunksOf (t : Nat) (l : List ℤ) : List (List ℤ) :=
  if t = 0 then [] else chunksOfAux t l.length l

/-- `np.array(jac).reshape(-1, t)` (lines 680-681), on the flattened row data;
row-length uniformity of the native result is a hypothesis of the theorems. -/
def npReshapeRows (flat : List ℤ) (t : Nat) : Except AdjErr (List (List ℤ)) :=
  if t = 0 then .error (.valueError "cannot reshape array")
  else if flat.length % t = 0 then .ok (chunksOf t flat)
  else .error (.valueError "cannot reshape array")

/-- `np.sum(rows, axis=0)` over rows of length `t`. -/
def sumRows (t : Nat) (rows : List (List ℤ)) : List ℤ :=
  rows.foldl (fun acc r => acc.zipWith (· + ·) r) (List.replicate t 0)

/-- Broadcasting a right-hand side that is not width-matched: a single
element is replicated across the row, anything else is a `ValueError`. -/
def broadcastOne (width : Nat) : List ℤ → Except AdjErr (List ℤ)
  | [x] => .ok (List.replicate width x)
  | _ => .error (.valueError "could not broadcast input array")

/-- Numpy assignment `jac_r[idx, :] = rhs` into a row of length `width`:
exact-width assignment, length-one broadcast, otherwise `ValueError`. -/
def npAssignRow (width : Nat) (rhs : List ℤ) : Except AdjErr (List ℤ) :=
  if rhs.length = width then .ok rhs else broadcastOne width rhs

/-- The reduce-over-offsets loop of `adjoint_jacobian` (lines 684-689),
producing the rows of `jac_r` for consecutive offset pairs. -/
def buildJacR (t width : Nat) (jac : List (List ℤ)) : List Nat → Except AdjErr (List (List ℤ))
  | a :: b :: rest =>
    let rhs := if 1 < b - a then sumRows t (pySlice jac a b) else (pySlice jac a b).flatten
    (match npAssignRow width rhs with
     | .error e => .error e
     | .ok row =>
       match buildJacR t width jac (b :: rest) with
       | .error e => .error e
       | .ok rows => .ok (row :: rows))
  | _ => .ok []

/-- The value `adjoint_jacobian` returns: the degenerate `np.array(0)` or the
assembled `jac_r` matrix. -/
inductive AdjResult
  | scalarZero
  | jacobian (rows : List (List ℤ))
  deriving DecidableEq, Repr

/-- Device configuration relevant to the adjoint path. -/
structure GpuDevice where
  totalDevices : Nat
  batchObs : BatchObs
  shots : Option Nat

/-- The reshape-and-aggregate tail of `adjoint_jacobian` (lines 680-691):
`np.array(jac).reshape(-1, len(tp_shift))` followed by the offsets reduction
into `jac_r = np.zeros((len(tape.observables), all_params))`. -/
def assembleJac (t : Tape) (jacRows : List (List ℤ)) : Except AdjErr AdjResult :=
  match npReshapeRows jacRows.flatten (tpShiftOf t).length with
  | .error e => .error e
  | .ok jac =>
    match buildJacR (tpShiftOf t).length (allParamsOf t) jac (obsOffsets t) with
    | .error e => .error e
    | .ok jacR => .ok (.jacobian jacR)

/-- `LightningGPU.adjoint_jacobian` (lines 587-691): validation, trainable
filtering, batched dispatch against the abstract kernel `rowFor`, reshape and
offsets aggregation; effects are recorded in execution order. -/
def adjoint_jacobian (dev : GpuDevice) (rowFor : Nat → List Int) (t : Tape)
    (startingState useDeviceState : Bool) :
    List AdjEffect × Except AdjErr AdjResult :=
  match check_adjdiff_supported_measurements t.measurements with
  | .error e => ([], .error e)
  | .ok _ =>
    if t.trainable_params.length = 0 then ([], .ok .scalarZero)
    else
      match check_adjdiff_supported_operations t.operations with
      | .error e => ([], .error e)
      | .ok _ =>
        let initEff : List AdjEffect :=
          if startingState then []
          else if useDeviceState then []
          else [.reset, .execute]
        let serEff : List AdjEffect := [.serializeObsEff, .serializeOpsEff]
        match dispatchJac dev.totalDevices dev.batchObs rowFor (serializeObservables t)
            (tpShiftOf t) with
        | .error e => (initEff ++ serEff, .error e)
        | .ok (callEffs, jacRows) =>
          (initEff ++ serEff ++ callEffs, assembleJac t jacRows)

/-! ### `expval` (lines 740-796) -/

/-- `word.name` of a Hamiltonian term: a plain name or a list of names. -/
inductive WordName
  | single (s : String)
  | multi (l : List String)
  deriving DecidableEq, Repr

/-- One term (`word`) of a Hamiltonian observable: its name(s) and wires. -/
structure HamWord where
  name : WordName
  wires : List Nat
  deriving DecidableEq, Repr

/-- The observable data `expval` consumes: name, wires (already device-local,
`map_wires` being the identity for default wire labels), parameters, the
Hamiltonian decomposition (`coeffs`, `ops`) and the raveled dense matrix
`qml.matrix(observable)`. -/
structure ExpObservable where
  name : String
  wires : List Nat
  parameters : List ℚ
  firstParamIsFloating : Bool
  coeffs : List ℚ
  ops : List HamWord
  matrix : List Amp
  deriving DecidableEq, Repr

/-- `_name_map` (line 106). -/
def nameMap (s : String) : Option String :=
  if s = "PauliX" then some "X"
  else if s = "PauliY" then some "Y"
  else if s = "PauliZ" then some "Z"
  else if s = "Identity" then some "I"
  else none

/-- Python `KeyError` from `_name_map[char]`. -/
inductive ExpvalErr
  | keyError
  deriving DecidableEq, Repr

/-- Map a partial function over a list, failing if any element fails. -/
def mapOpt {α β : Type} (f : α → Option β) : List α → Option (List β)
  | [] => some []
  | a :: l =>
    match f a, mapOpt f l with
    | some b, some bs => some (b :: bs)
    | _, _ => none

/-- Map a fallible function over a list, propagating the first error. -/
def mapExc {ε α β : Type} (f : α → Except ε β) : List α → Except ε (List β)
  | [] => .ok []
  | a :: l =>
    match f a with
    | .error e => .error e
    | .ok b =>
      match mapExc f l with
      | .error e => .error e
      | .ok bs => .ok (b :: bs)

/-- The per-term compression loop of `expval` (lines 768-776). -/
def compressWord : WordName → Except ExpvalErr String
  | .single s =>
    match nameMap s with
    | some c => .ok c
    | none => .error .keyError
  | .multi l =>
    match mapOpt nameMap l with
    | some cs => .ok (String.join cs)
    | none => .error .keyError

/-- Which backend contraction `expval` ends up requesting. -/
inductive ExpvalCall
  | hostFallback
  | sampledMean
  | sparseEV
  | pauliEV (words : List String) (wordWires : List (List Nat)) (coeffs : List ℚ)
  | denseHamEV (wires : List Nat) (matrix : List Amp)
  | namedEV (name : String) (wires : List Nat) (par : List ℚ) (matrix : List Amp)
  deriving DecidableEq, Repr

/-- `LightningGPU.expval` (lines 740-796): host fallback for
Projector/Hermitian, sampling under finite shots, sparse contraction, the
Hamiltonian wire-count dispatch at threshold 13, and the generic named path. -/
def expval (shots : Option Nat) (o : ExpObservable) : Except ExpvalErr ExpvalCall :=
  if o.name = "Projector" ∨ o.name = "Hermitian" then .ok .hostFallback
  else if shots ≠ none then .ok .sampledMean
  else if o.name = "SparseHamiltonian" then .ok .sparseEV
  else if o.name = "Hamiltonian" then
    if 13 < o.wires.length then
      match mapExc (fun w => compressWord w.name) o.ops with
      | .error e => .error e
      | .ok words => .ok (.pauliEV words (o.ops.map (fun w => w.wires)) o.coeffs)
    else .ok (.denseHamEV o.wires o.matrix)
  else
    let par := if 0 < o.parameters.length ∧ o.firstParamIsFloating = true then o.parameters else []
    .ok (.namedEV o.name o.wires par o.matrix)

/-! ### `_apply_state_vector_GPU` (lines 367-410) -/

/-- The `state` argument: a 1-D or 2-D (broadcasted) numpy array. -/
inductive NpState
  | one (v : List Amp)
  | two (rows : List (List Amp))
  deriving DecidableEq, Repr

def NpState.ndim : NpState → Nat
  | one _ => 1
  | two _ => 2

def NpState.size : NpState → Nat
  | one v => v.length
  | two rows => (rows.map List.length).sum

/-- The trailing dimension of the array. -/
def NpState.rowLen : NpState → Nat
  | one v => v.length
  | two [] => 0
  | two (r :: _) => r.length

/-- Rectangularity: a numpy array is rectangular by construction, a `two`
value must have equal-length rows to model one. -/
def NpState.wellFormed : NpState → Prop
  | one _ => True
  | two rows => ∀ r ∈ rows, r.length = NpState.rowLen (.two rows)

/-- The rows whose norms `np.linalg.norm(state, axis=-1)` computes. -/
def rowsOf : NpState → List (List Amp)
  | .one v => [v]
  | .two rows => rows

/-- `QubitDevice._get_batch_size(state, (dim,), dim)` (lines 252-259). -/
def getBatchSize (s : NpState) (dim : Nat) : Option Nat :=
  if 1 < s.ndim ∨ dim < s.size then some (s.size / dim) else none

/-- `state.shape in [(dim,), (batch_size, dim)]` (line 385). -/
def shapeOk (s : NpState) (dim : Nat) (batch : Option Nat) : Bool :=
  match s, batch with
  | .one v, _ => v.length = dim
  | .two rows, some b => rows.length = b && NpState.rowLen (.two rows) = dim
  | .two _, none => false

/-- `tolerance` (line 44), the `atol` passed to `qml.math.allclose`. -/
def atol : ℚ := 1 / 1000000

/-- The default relative tolerance of `qml.math.allclose` / `np.allclose`. -/
def rtol : ℚ := 1 / 100000

/-- `np.allclose(norm, 1.0, atol=tolerance)` accepts `|norm - 1| ≤ atol +
rtol * |1.0|`. -/
def allcloseTol : ℚ := atol + rtol * 1

/-- Squared Euclidean norm of one state row. -/
def normSq (v : List Amp) : ℚ :=
  (v.map (fun a => a.1 * a.1 + a.2 * a.2)).sum

/-- The allclose norm test on the squared norm: `|sqrt q - 1| ≤ allcloseTol`
stated without the square root (see `normWithinTol_iff_sqrt`). -/
def normWithinTol (q : ℚ) : Bool :=
  decide ((1 - allcloseTol) ^ 2 ≤ q ∧ q ≤ (1 + allcloseTol) ^ 2)

/-- `qml.math.allclose(qml.math.linalg.norm(state, axis=-1), 1.0,
atol=tolerance)` (lines 389-390). -/
def normAllOk (s : NpState) : Bool :=
  (rowsOf s).all (fun r => normWithinTol (normSq r))

/-- `Wires(sorted(device_wires)) == device_wires` (line 393). -/
def isSortedNat : List Nat → Bool
  | [] => true
  | [_] => true
  | a :: b :: rest => a ≤ b && isSortedNat (b :: rest)

inductive InitErr
  | shapeError
  | normError
  deriving DecidableEq, Repr

/-- The mutation `_apply_state_vector_GPU` performs on success. -/
inductive InitAction
  | fullInit
  | scatterInit
  deriving DecidableEq, Repr

/-- `LightningGPU._apply_state_vector_GPU` (lines 367-410) for a concrete
(non-abstract) state: shape check, then norm check, and only then either the
full-state host assignment plus H2D sync or the GPU scatter
(`setStateVector`); wires are already device-local. -/
def applyStateVectorGPU (numWires : Nat) (state : NpState) (deviceWires : List Nat) :
    Except InitErr InitAction :=
  let dim := 2 ^ deviceWires.length
  let batch := getBatchSize state dim
  if shapeOk state dim batch = false then .error .shapeError
  else if normAllOk state = false then .error .normError
  else if deviceWires.length = numWires && isSortedNat deviceWires then .ok .fullInit
  else .ok .scatterInit

/-! ### `var` (lines 823-847) -/

def cAdd (a b : Amp) : Amp := (a.1 + b.1, a.2 + b.2)

def cMul (a b : Amp) : Amp := (a.1 * b.1 - a.2 * b.2, a.1 * b.2 + a.2 * b.1)

def cConj (a : Amp) : Amp := (a.1, -a.2)

abbrev CMatrix := List (List Amp)

def matConj (m : CMatrix) : CMatrix := m.map (fun r => r.map cConj)

def matTransposeAux : Nat → CMatrix → CMatrix
  | 0, _ => []
  | k + 1, m => m.map (fun r => r.headD (0, 0)) :: matTransposeAux k (m.map List.tail)

/-- `math.T` on a rectangular matrix: one output row per column. -/
def matTranspose (m : CMatrix) : CMatrix := matTransposeAux (m.headD []).length m

def dotRow (r c : List Amp) : Amp := (List.zipWith cMul r c).foldl cAdd (0, 0)

/-- `np.matmul` on rectangular matrices. -/
def matMul (a b : CMatrix) : CMatrix :=
  a.map (fun r => (matTranspose b).map (fun c => dotRow r c))

def ravel (m : CMatrix) : List Amp := m.flatten

/-- The observable data `var` consumes.  Python iterates `observable.name`
(the list of constituent names for a `Tensor` observable; for a plain string
it iterates characters), suffixing each element -- the resulting name list is
opaque to the backend oracle, so it is modelled as a list of strings. -/
structure VarObs where
  names : List String
  wires : List Nat
  parameters : List ℚ
  matrix : CMatrix
  deriving DecidableEq, Repr

inductive VarResult
  | sampled
  | analytic (value : ℚ)
  deriving DecidableEq, Repr

/-- `LightningGPU.var` (lines 823-847): finite-shot sampling estimate, or the
analytic `squared_mean - mean ** 2` with `sqr_matrix =
math.T(math.conj(M)) @ M`; `EV` is the backend `ExpectationValue` oracle,
which reads the state without mutating it. -/
def var (shots : Option Nat)
    (EV : List String → List Nat → List ℚ → List Amp → ℚ)
    (o : VarObs) : VarResult :=
  if shots ≠ none then .sampled
  else
    let adjointMatrix := matTranspose (matConj o.matrix)
    let sqrMatrix := matMul adjointMatrix o.matrix
    let mean := EV (o.names.map (fun i => i ++ "_var")) o.wires o.parameters (ravel o.matrix)
    let squaredMean := EV (o.names.map (fun i => i ++ "_sqr")) o.wires o.parameters (ravel sqrMatrix)
    .analytic (squaredMean - mean ^ 2)

/-! ### `apply`, `apply_cq` and `sample` (lines 468-525, 734-738) -/

/-- The native backend surface used by `apply`, `apply_cq` and `sample`,
abstracted over the (host plus device) state type `σ`: named-kernel lookup
and application, explicit-matrix application, the Python state preparations,
sample generation, and the D2H sync. -/
structure Backend (σ : Type) where
  hasKernel : String → Bool
  applyNamed : σ → String → List Nat → Bool → List ℚ → σ
  applyMatrix : σ → String → List Nat → List (List Amp) → σ
  statePrepSV : σ → Op → σ
  statePrepBasis : σ → Op → σ
  genSamples : σ → List (List Nat)
  syncD2H : σ → σ

inductive ApplyErr
  | deviceError (msg : String)
  | unsupportedOperation
  deriving DecidableEq, Repr

/-- `LightningGPU.apply_cq` (lines 468-502): skip `Identity`, dispatch a named
kernel when the backend has one, else apply the explicit matrix (error on an
empty matrix); returns the device state as mutated by the operations before
any failure, plus the error, if any. -/
def apply_cq {σ : Type} (B : Backend σ) (s : σ) : List Op → σ × Option ApplyErr
  | [] => (s, none)
  | o :: rest =>
    if o.baseName = "Identity" then apply_cq B s rest
    else
      let nm := (o.name.splitOn ".").headD ""
      if B.hasKernel nm then apply_cq B (B.applyNamed s nm o.wires o.inverse o.parameters) rest
      else if o.matrix.length = 0 then (s, some .unsupportedOperation)
      else apply_cq B (B.applyMatrix s nm o.wires o.matrix) rest

/-- The first-position state-preparation handling of `apply` (lines 505-514):
the state after the optional preparation, and the remaining operations. -/
def stripPrep {σ : Type} (B : Backend σ) (s : σ) : List Op → σ × List Op
  | [] => (s, [])
  | o :: rest =>
    if o.isQSV then (B.statePrepSV s o, rest)
    else if o.isBasisState then (B.statePrepBasis s o, rest)
    else (s, o :: rest)

/-- `LightningGPU.apply` (lines 504-525): strip a first-position state
preparation, raise `DeviceError` if any state preparation remains (scanned
before any gate is applied), then replay the gates and optionally sync. -/
def applyDev {σ : Type} (B : Backend σ) (sync : Bool) (s : σ) (ops : List Op) :
    σ × Option ApplyErr :=
  let s1 := (stripPrep B s ops).1
  let rest := (stripPrep B s ops).2
  if rest.any (fun o => o.isStatePrep) then
    (s1, some (.deviceError "Operation cannot be used after other Operations have already been applied"))
  else
    match apply_cq B s1 rest with
    | (s2, some e) => (s2, some e)
    | (s2, none) => (if sync then B.syncD2H s2 else s2, none)

/-- The observable data `sample` consumes: its name and diagonalizing gates. -/
structure SampleObs where
  name : String
  diagGates : List Op

/-- `LightningGPU.sample` (lines 734-738): for an observable other than
`PauliZ`, rotate the device state in place with the diagonalizing gates and
regenerate the sample cache, then delegate to the generic sampler; returns
the final device state, the sample cache the delegate sees, and the error, if
any (the pre-rotation state is neither saved nor restored). -/
def sampleDev {σ : Type} (B : Backend σ) (s : σ) (cache : List (List Nat))
    (o : SampleObs) : σ × List (List Nat) × Option ApplyErr :=
  if o.name ≠ "PauliZ" then
    match apply_cq B s o.diagGates with
    | (s2, some e) => (s2, cache, some e)
    | (s2, none) => (s2, B.genSamples s2, none)
  else (s, cache, none)

/-- The rows the offsets reduction is expected to produce: for consecutive
offset ranges of widths `counts` starting at row `a`, either the column-wise
sum of the sliced term rows or the single sliced row copied through (the same
slices `buildJacR` takes). -/
def aggRows (T : Nat) (jac : List (List ℤ)) : Nat → List Nat → List (List ℤ)
  | _, [] => []
  | a, k :: ks =>
    (if 1 < k then sumRows T (pySlice jac a (a + k)) else (pySlice jac a (a + k)).flatten)
      :: aggRows T jac (a + k) ks

/-- Sum of the first `i` entries: the offset of observable slot `i`. -/
def sumTake (l : List Nat) (i : Nat) : Nat := (l.take i).sum

/-! ### Concrete fixtures used by witnesses and counterexamples -/

def opRX : Op :=
  { name := "RX", baseName := "RX", numParams := 1, isRot := false, isQSV := false,
    isBasisState := false, isOperation := true, inverse := false, parameters := [1],
    wires := [0], matrix := [[(1, 0)]] }

def opSP : Op :=
  { name := "QubitStateVector", baseName := "QubitStateVector", numParams := 1, isRot := false,
    isQSV := true, isBasisState := false, isOperation := true, inverse := false, parameters := [],
    wires := [0], matrix := [] }

def opBasisF : Op :=
  { name := "BasisState", baseName := "BasisState", numParams := 1, isRot := false,
    isQSV := false, isBasisState := true, isOperation := true, inverse := false,
    parameters := [0], wires := [0], matrix := [] }

def opCRotF : Op :=
  { name := "CRot", baseName := "CRot", numParams := 3, isRot := false, isQSV := false,
    isBasisState := false, isOperation := true, inverse := false, parameters := [1, 2, 3],
    wires := [0, 1], matrix := [[(1, 0)]] }

def opRotF : Op :=
  { name := "Rot", baseName := "Rot", numParams := 3, isRot := true, isQSV := false,
    isBasisState := false, isOperation := true, inverse := false, parameters := [1, 2, 3],
    wires := [0], matrix := [[(1, 0)]] }

def simpleExpObs : MeasObs := .simple { isProjector := false, isHermitian := false }

def measExpAt (i : Nat) : Measurement :=
  { returnType := .expectation, obs := simpleExpObs, terms := [i] }

def measExp : Measurement := measExpAt 0

def measH3 : Measurement :=
  { returnType := .expectation, obs := simpleExpObs, terms := [0, 1, 2] }

def measState : Measurement := { returnType := .state, obs := simpleExpObs, terms := [] }

def devU : GpuDevice := { totalDevices := 1, batchObs := .flag false, shots := none }

def devB : GpuDevice := { totalDevices := 1, batchObs := .flag true, shots := none }

def devK : GpuDevice := { totalDevices := 1, batchObs := .cap 1, shots := none }

def rowOne : Nat → List ℤ := fun _ => [7]

def rowTwo : Nat → List ℤ := fun i => [(i : ℤ), 7]

def tapeC1 : Tape :=
  { operations := [opSP, opRX], measurements := [measExp],
    trainable_params := [0, 1], getOp := fun i => if i = 0 then opSP else opRX }

def tapeC1w : Tape :=
  { operations := [opSP, opRX, opRX], measurements := [measExp],
    trainable_params := [1, 2], getOp := fun _ => opRX }

def tapeC2w : Tape :=
  { operations := [opRX], measurements := [measH3, measExpAt 3],
    trainable_params := [0], getOp := fun _ => opRX }

def tapeC3 : Tape :=
  { operations := [opRX], measurements := [], trainable_params := [0],
    getOp := fun _ => opRX }

def tapeC3w : Tape :=
  { operations := [opRX],
    measurements := [measExpAt 0, measExpAt 1, measExpAt 2, measExpAt 3],
    trainable_params := [0], getOp := fun _ => opRX }

def tapeC6 : Tape :=
  { operations := [opCRotF], measurements := [measExp], trainable_params := [],
    getOp := fun _ => opCRotF }

def tapeC6w : Tape :=
  { operations := [opCRotF], measurements := [measExp], trainable_params := [0],
    getOp := fun _ => opCRotF }

def tapeC7 : Tape :=
  { operations := [], measurements := [measState], trainable_params := [],
    getOp := fun _ => opRX }

def tapeC7w : Tape :=
  { operations := [opRX], measurements := [measExp], trainable_params := [],
    getOp := fun _ => opRX }

def hamWordZ : HamWord := { name := .single "PauliZ", wires := [0] }

def ham14 : ExpObservable :=
  { name := "Hamiltonian", wires := List.range 14, parameters := [],
    firstParamIsFloating := false, coeffs := [1], ops := [hamWordZ], matrix := [] }

def ham13 : ExpObservable :=
  { name := "Hamiltonian", wires := List.range 13, parameters := [],
    firstParamIsFloating := false, coeffs := [1], ops := [hamWordZ], matrix := [(1, 0)] }

def pauliZMat : CMatrix := [[(1, 0), (0, 0)], [(0, 0), (-1, 0)]]

def varObsZ : VarObs :=
  { names := ["PauliZ"], wires := [0], parameters := [], matrix := pauliZMat }

def evHead : List String → List Nat → List ℚ → List Amp → ℚ :=
  fun _ _ _ m => (m.headD (0, 0)).1

def natBackend : Backend Nat :=
  { hasKernel := fun _ => true,
    applyNamed := fun s _ _ _ _ => s + 10,
    applyMatrix := fun s _ _ _ => s + 100,
    statePrepSV := fun s _ => s + 1000,
    statePrepBasis := fun s _ => s + 1,
    genSamples := fun s => [[s]],
    syncD2H := fun s => s }

def obsIdentity : SampleObs := { name := "Identity", diagGates := [] }

def obsPauliX : SampleObs := { name := "PauliX", diagGates := [opRX] }

def exRow : List Amp := [((1000005 : ℚ) / 1000000, 0), (0, 0)]

def exNorm : NpState := .one exRow

/-! ## Support lemmas -/

theorem measObsOk_error_qfe (o : MeasObs) (e : AdjErr) (h : measObsOk o = .error e) :
    ∃ msg, e = .qfe msg := by
  cases o with
  | simple b =>
    simp only [measObsOk] at h
    split at h
    · exact ⟨_, (Except.error.inj h).symm⟩
    · split at h
      · exact ⟨_, (Except.error.inj h).symm⟩
      · exact Except.noConfusion h
  | tensor os =>
    simp only [measObsOk] at h
    split at h
    · exact ⟨_, (Except.error.inj h).symm⟩
    · split at h
      · exact ⟨_, (Except.error.inj h).symm⟩
      · exact Except.noConfusion h

theorem measObsListOk_error_qfe (ms : List Measurement) (e : AdjErr)
    (h : measObsListOk ms = .error e) : ∃ msg, e = .qfe msg := by
  induction ms with
  | nil => exact Except.noConfusion h
  | cons m rest ih =>
    simp only [measObsListOk] at h
    cases ho : measObsOk m.obs with
    | error e2 =>
      rw [ho] at h
      exact (Except.error.inj h) ▸ measObsOk_error_qfe m.obs e2 ho
    | ok r =>
      rw [ho] at h
      exact ih h

theorem checkMeas_error_qfe (ms : List Measurement) (e : AdjErr)
    (h : check_adjdiff_supported_measurements ms = .error e) : ∃ msg, e = .qfe msg := by
  cases ms with
  | nil => exact Except.noConfusion h
  | cons m rest =>
    simp only [check_adjdiff_supported_measurements] at h
    split at h
    · exact ⟨_, (Except.error.inj h).symm⟩
    · split at h
      · exact ⟨_, (Except.error.inj h).symm⟩
      · cases hl : measObsListOk (m :: rest) with
        | error e2 =>
          rw [hl] at h
          exact (Except.error.inj h) ▸ measObsListOk_error_qfe _ e2 hl
        | ok r =>
          rw [hl] at h
          exact Except.noConfusion h

theorem checkOps_error_of_bad (ops : List Op)
    (hbad : ∃ op ∈ ops, 1 < op.numParams ∧ op.isRot = false) :
    check_adjdiff_supported_operations ops
      = .error (.qfe "operation not supported using the adjoint differentiation method") := by
  induction ops with
  | nil => obtain ⟨op, hop, _⟩ := hbad; cases hop
  | cons o rest ih =>
    by_cases hc : 1 < o.numParams ∧ o.isRot = false
    · simp [check_adjdiff_supported_operations, hc]
    · obtain ⟨op, hop, hprop⟩ := hbad
      have hmem : op ∈ rest := by
        cases hop with
        | head => exact absurd hprop hc
        | tail _ h => exact h
      simp [check_adjdiff_supported_operations, hc]
      exact ih ⟨op, hmem, hprop⟩

theorem checkOps_ok_of_rot (ops : List Op)
    (h : ∀ op ∈ ops, 1 < op.numParams → op.isRot = true) :
    check_adjdiff_supported_operations ops = .ok () := by
  induction ops with
  | nil => rfl
  | cons o rest ih =>
    have hc : ¬ (1 < o.numParams ∧ o.isRot = false) := by
      rintro ⟨h1, h2⟩
      exact absurd (h o (List.mem_cons_self o rest) h1) (by simp [h2])
    simp [check_adjdiff_supported_operations, hc]
    exact ih (fun op hop => h op (List.mem_cons_of_mem o hop))

/-! ## Claim theorems -/

/-- C7 counterexample: a tape with an empty trainable-parameter set but a
State-return measurement makes `adjoint_jacobian` raise
`QuantumFunctionError("Not supported")` from the measurement validation (line
595, which runs before the empty-trainable short-circuit at line 597) instead
of returning the degenerate all-zero result the claim promises for every
empty-trainable tape. -/
theorem C7_counterexample :
    adjoint_jacobian devU rowOne tapeC7 false false = ([], .error (.qfe "Not supported")) := rfl

/-- C7 (amended): for every tape whose measurements pass the adjoint
measurement validation and whose trainable-parameter set is empty,
`adjoint_jacobian` returns the degenerate `np.array(0)` immediately, with no
state reset or forward execution, no tape serialization, and no backend
reverse-sweep call (the effect trace is empty). -/
theorem C7_amended_empty_trainable (dev : GpuDevice) (rowFor : Nat → List Int) (t : Tape)
    (ss uds : Bool) (r : Option RetType)
    (hm : check_adjdiff_supported_measurements t.measurements = .ok r)
    (hempty : t.trainable_params = []) :
    adjoint_jacobian dev rowFor t ss uds = ([], .ok .scalarZero) := by
  simp [adjoint_jacobian, hm, hempty]

theorem C7_amended_empty_trainable_witness :
    adjoint_jacobian devU rowOne tapeC7w false false = ([], .ok .scalarZero) :=
  C7_amended_empty_trainable devU rowOne tapeC7w false false (some .expectation) rfl rfl

/-- C6 counterexample: a tape containing the multi-parameter non-Rot
operation CRot but an empty trainable-parameter set returns `np.array(0)`
from the short-circuit at line 597 and never raises: the operation validation
at line 601 only runs for tapes with at least one trainable parameter. -/
theorem C6_counterexample :
    adjoint_jacobian devU rowOne tapeC6 false false = ([], .ok .scalarZero) := rfl

/-- C6 (amended): for every tape with a nonempty trainable-parameter set that
contains an operation with more than one numeric parameter which is not a
Rot, `adjoint_jacobian` raises a `QuantumFunctionError` eagerly -- with an
empty effect trace, i.e. before any serialization, state initialization or
reverse-sweep call; and the operation check passes every operation list whose
multi-parameter operations are all Rot. -/
theorem C6_amended_multiparam_validation :
    (∀ (dev : GpuDevice) (rowFor : Nat → List Int) (t : Tape) (ss uds : Bool),
      t.trainable_params ≠ [] →
      (∃ op ∈ t.operations, 1 < op.numParams ∧ op.isRot = false) →
      (adjoint_jacobian dev rowFor t ss uds).1 = [] ∧
        ∃ msg, (adjoint_jacobian dev rowFor t ss uds).2 = .error (.qfe msg)) ∧
    (∀ ops : List Op, (∀ op ∈ ops, 1 < op.numParams → op.isRot = true) →
      check_adjdiff_supported_operations ops = .ok ()) := by
  constructor
  · intro dev rowFor t ss uds hne hbad
    cases hm : check_adjdiff_supported_measurements t.measurements with
    | error e =>
      obtain ⟨msg, rfl⟩ := checkMeas_error_qfe _ _ hm
      exact ⟨by simp [adjoint_jacobian, hm], msg, by simp [adjoint_jacobian, hm]⟩
    | ok r =>
      have hlen : ¬ t.trainable_params.length = 0 := by
        simpa [List.length_eq_zero] using hne
      have hops := checkOps_error_of_bad t.operations hbad
      exact ⟨by simp [adjoint_jacobian, hm, hlen, hops],
        "operation not supported using the adjoint differentiation method",
        by simp [adjoint_jacobian, hm, hlen, hops]⟩
  · exact checkOps_ok_of_rot

theorem C6_amended_multiparam_validation_witness :
    ((adjoint_jacobian devU rowOne tapeC6w false false).1 = [] ∧
      ∃ msg, (adjoint_jacobian devU rowOne tapeC6w false false).2 = .error (.qfe msg)) ∧
      check_adjdiff_supported_operations [opRotF] = .ok () := by
  obtain ⟨h1, h2⟩ := C6_amended_multiparam_validation
  refine ⟨h1 devU rowOne tapeC6w false false ?_ ⟨opCRotF, ?_, ?_, ?_⟩, h2 [opRotF] ?_⟩
  · exact List.cons_ne_nil 0 []
  · exact List.mem_singleton.mpr rfl
  · norm_num [tapeC6w, opCRotF]
  · rfl
  · intro op hop
    rw [List.mem_singleton] at hop
    subst hop
    intro _
    rfl

/-- C9 counterexample: for the operation list `[BasisState, RX, BasisState]`
the `DeviceError` is raised, but the device state (modelled as a counter) has
already been mutated from 0 to 1 by the first-position basis-state
preparation, so the state is not unchanged on this error as the claim
asserts. -/
theorem C9_counterexample :
    applyDev natBackend true (0 : Nat) [opBasisF, opRX, opBasisF]
      = (1, some (.deviceError
          "Operation cannot be used after other Operations have already been applied"))
      ∧ (1 : Nat) ≠ 0 :=
  ⟨rfl, one_ne_zero⟩

/-- C9 (amended): for every operation list in which a state preparation
appears after the (possibly stripped-and-applied) first position, `apply`
raises `DeviceError` before any gate is applied: the resulting device state
is exactly the state after the optional first-position state preparation, for
every backend -- so no gate of the list has been replayed and no sync has
happened, but the state does reflect a successful first-position preparation
when one was present. -/
theorem C9_amended_prep_position_error {σ : Type} (B : Backend σ) (sync : Bool) (s : σ)
    (ops : List Op)
    (h : ((stripPrep B s ops).2).any (fun o => o.isStatePrep) = true) :
    applyDev B sync s ops
      = ((stripPrep B s ops).1,
         some (.deviceError
           "Operation cannot be used after other Operations have already been applied")) := by
  simp [applyDev, h]

theorem C9_amended_prep_position_error_witness :
    applyDev natBackend true (0 : Nat) [opBasisF, opRX, opBasisF]
      = (1, some (.deviceError
          "Operation cannot be used after other Operations have already been applied")) :=
  (C9_amended_prep_position_error natBackend true 0 [opBasisF, opRX, opBasisF] rfl).trans rfl

/-- C10 counterexample: sampling the `Identity` observable (name differs from
PauliZ, empty diagonalizing-gate list) regenerates the sample cache but
leaves the device state exactly as it was (5 before, 5 after), contradicting
the claim that the device state after the call always differs from the state
before it. -/
theorem C10_counterexample :
    sampleDev natBackend (5 : Nat) [[0]] obsIdentity = (5, [[5]], none) := rfl

/-- C10 (amended): for every sampling request on an observable whose name is
not PauliZ and whose diagonalizing gates replay without error, `sample`
mutates the device state in place to the diagonalized state, regenerates the
sample cache from that rotated state before delegating, and neither saves nor
restores the pre-rotation state; the post-call state differs from the
pre-call state exactly when the diagonalizing gates act nontrivially on it. -/
theorem C10_amended_sample_rotation {σ : Type} (B : Backend σ) (s : σ)
    (cache : List (List Nat)) (o : SampleObs)
    (hname : o.name ≠ "PauliZ")
    (hok : (apply_cq B s o.diagGates).2 = none) :
    sampleDev B s cache o
      = ((apply_cq B s o.diagGates).1,
         B.genSamples (apply_cq B s o.diagGates).1, none) := by
  rcases hp : apply_cq B s o.diagGates with ⟨s2, err⟩
  rw [hp] at hok
  simp only at hok
  subst hok
  simp [sampleDev, hname, hp]

theorem C10_amended_sample_rotation_witness :
    sampleDev natBackend (0 : Nat) [] obsPauliX = (10, [[10]], none) :=
  (C10_amended_sample_rotation natBackend 0 [] obsPauliX (by decide) rfl).trans rfl

/-- C8: for every analytic (shots = None) variance request on an observable
with Hermitian matrix (so that the code's `math.T(math.conj(M))` equals `M`
and the square matrix is the composition of the observable's matrix with
itself), `var` returns the backend expectation of the composed square matrix
minus the squared backend expectation of the observable's matrix, both
obtained through the read-only `ExpectationValue` oracle. -/
theorem C8_variance_formula
    (EV : List String → List Nat → List ℚ → List Amp → ℚ) (o : VarObs)
    (hherm : matTranspose (matConj o.matrix) = o.matrix) :
    var none EV o = .analytic
      (EV (o.names.map (fun i => i ++ "_sqr")) o.wires o.parameters
          (ravel (matMul o.matrix o.matrix))
        - (EV (o.names.map (fun i => i ++ "_var")) o.wires o.parameters (ravel o.matrix)) ^ 2) := by
  simp [var, hherm]

theorem C8_variance_formula_witness :
    var none evHead varObsZ = .analytic 0 :=
  (C8_variance_formula evHead varObsZ rfl).trans (by
    norm_num [evHead, varObsZ, pauliZMat, matMul, matTranspose, matTransposeAux, dotRow,
      cMul, cAdd, ravel])

theorem mapExc_ok_of_all {ε α β : Type} (f : α → Except ε β) (l : List α)
    (h : ∀ a ∈ l, ∃ b, f a = .ok b) : ∃ bs, mapExc f l = .ok bs := by
  induction l with
  | nil => exact ⟨[], rfl⟩
  | cons a l ih =>
    obtain ⟨b, hb⟩ := h a (List.mem_cons_self a l)
    obtain ⟨bs, hbs⟩ := ih (fun x hx => h x (List.mem_cons_of_mem a hx))
    exact ⟨b :: bs, by simp [mapExc, hb, hbs]⟩

/-- C4: for every analytic (shots = None) expectation request on a
Hamiltonian observable whose terms carry `_name_map`-translatable names,
`expval` dispatches on the fixed wire-count threshold 13: strictly more than
13 device wires takes the Pauli-word decomposition (per-word strings,
per-word wires and the coefficients, evaluated term-wise by the backend), at
most 13 takes the single dense-matrix contraction, and no other path
exists. -/
theorem C4_hamiltonian_threshold (o : ExpObservable)
    (hname : o.name = "Hamiltonian")
    (hterms : ∀ w ∈ o.ops, ∃ c, compressWord w.name = .ok c) :
    (13 < o.wires.length →
      ∃ words, mapExc (fun w => compressWord w.name) o.ops = .ok words ∧
        expval none o = .ok (.pauliEV words (o.ops.map (fun w => w.wires)) o.coeffs)) ∧
    (o.wires.length ≤ 13 →
      expval none o = .ok (.denseHamEV o.wires o.matrix)) := by
  have hnp : ¬ (o.name = "Projector" ∨ o.name = "Hermitian") := by
    rw [hname]; decide
  have hsh : ¬ (o.name = "SparseHamiltonian") := by
    rw [hname]; decide
  constructor
  · intro h13
    obtain ⟨words, hw⟩ := mapExc_ok_of_all (fun w => compressWord w.name) o.ops hterms
    refine ⟨words, hw, ?_⟩
    simp [expval, hnp, hsh, hname, h13, hw]
  · intro h13
    have hlt : ¬ (13 < o.wires.length) := not_lt.mpr h13
    simp [expval, hnp, hsh, hname, hlt]

theorem C4_hamiltonian_threshold_witness :
    expval none ham14 = .ok (.pauliEV ["Z"] [[0]] [1]) ∧
      expval none ham13 = .ok (.denseHamEV [0, 1, 2, 3, 4, 5, 6, 7, 8, 9, 10, 11, 12] [(1, 0)]) := by
  have hterms14 : ∀ w ∈ ham14.ops, ∃ c, compressWord w.name = .ok c := by
    intro w hw
    have hwz : w = hamWordZ := by simpa [ham14] using hw
    subst hwz
    exact ⟨"Z", rfl⟩
  have hterms13 : ∀ w ∈ ham13.ops, ∃ c, compressWord w.name = .ok c := by
    intro w hw
    have hwz : w = hamWordZ := by simpa [ham13] using hw
    subst hwz
    exact ⟨"Z", rfl⟩
  obtain ⟨h1, _⟩ := C4_hamiltonian_threshold ham14 rfl hterms14
  obtain ⟨words, hwds, he⟩ := h1 (by simp [ham14])
  have hwz : words = ["Z"] := by
    have h0 : mapExc (fun w => compressWord w.name) ham14.ops = .ok ["Z"] := rfl
    rw [h0] at hwds
    exact (Except.ok.inj hwds).symm
  subst hwz
  obtain ⟨_, h2⟩ := C4_hamiltonian_threshold ham13 rfl hterms13
  exact ⟨he, h2 (by simp [ham13])⟩

theorem normSq_nonneg (v : List Amp) : 0 ≤ normSq v := by
  induction v with
  | nil => simp [normSq]
  | cons a v ih =>
    simp only [normSq, List.map_cons, List.sum_cons]
    have h1 : 0 ≤ a.1 * a.1 := mul_self_nonneg a.1
    have h2 : 0 ≤ a.2 * a.2 := mul_self_nonneg a.2
    simp only [normSq] at ih
    linarith

theorem normWithinTol_iff (q : ℚ) :
    normWithinTol q = true ↔ ((1 - allcloseTol) ^ 2 ≤ q ∧ q ≤ (1 + allcloseTol) ^ 2) := by
  simp [normWithinTol]

/-- The squared-norm test computed by `normWithinTol` is exactly the
`allclose` test of the source on the Euclidean norm itself. -/
theorem normWithinTol_iff_sqrt (q : ℚ) (hq : 0 ≤ q) :
    normWithinTol q = true ↔ |Real.sqrt ((q : ℝ)) - 1| ≤ ((allcloseTol : ℚ) : ℝ) := by
  have h1t : (0 : ℝ) ≤ 1 - ((allcloseTol : ℚ) : ℝ) := by norm_num [allcloseTol, atol, rtol]
  have h1t' : (0 : ℝ) ≤ 1 + ((allcloseTol : ℚ) : ℝ) := by norm_num [allcloseTol, atol, rtol]
  have hqR : (0 : ℝ) ≤ (q : ℝ) := by exact_mod_cast hq
  have hcast1 : ((1 - allcloseTol) ^ 2 ≤ q) ↔ (1 - ((allcloseTol : ℚ) : ℝ)) ^ 2 ≤ (q : ℝ) := by
    constructor <;> intro h <;> exact_mod_cast h
  have hcast2 : (q ≤ (1 + allcloseTol) ^ 2) ↔ (q : ℝ) ≤ (1 + ((allcloseTol : ℚ) : ℝ)) ^ 2 := by
    constructor <;> intro h <;> exact_mod_cast h
  rw [normWithinTol_iff, abs_sub_le_iff, hcast1, hcast2,
    ← Real.le_sqrt h1t hqR, ← Real.sqrt_le_left h1t']
  constructor
  · rintro ⟨hlo, hhi⟩
    exact ⟨by linarith, by linarith⟩
  · rintro ⟨hhi, hlo⟩
    exact ⟨by linarith, by linarith⟩

theorem applyStateVectorGPU_ok_iff (numWires : Nat) (state : NpState) (deviceWires : List Nat) :
    (∃ a, applyStateVectorGPU numWires state deviceWires = .ok a) ↔
      (shapeOk state (2 ^ deviceWires.length) (getBatchSize state (2 ^ deviceWires.length)) = true
        ∧ normAllOk state = true) := by
  by_cases h1 : shapeOk state (2 ^ deviceWires.length)
      (getBatchSize state (2 ^ deviceWires.length)) = false
  · simp [applyStateVectorGPU, h1]
  · rw [Bool.not_eq_false] at h1
    by_cases h2 : normAllOk state = false
    · simp [applyStateVectorGPU, h1, h2]
    · rw [Bool.not_eq_false] at h2
      simp only [applyStateVectorGPU, h1, h2, Bool.true_eq_false, if_false, true_and]
      constructor
      · intro _
        trivial
      · intro _
        split
        · exact ⟨.fullInit, rfl⟩
        · exact ⟨.scatterInit, rfl⟩

/-- C5 (amended): explicit-state initialization succeeds exactly when the
array shape is `(2**wires,)` or `(batch_size, 2**wires)` and every state
row's Euclidean norm is within `atol + rtol = 1.1e-5` of 1 -- the
`atol = 1e-6` (the module's `tolerance`) passed at line 390 is combined with
`np.allclose`'s default relative tolerance `1e-5`; on any failed check the
function raises `ValueError` before any host or device mutation (the
Except-error return carries no `InitAction`). -/
theorem C5_amended_norm_tolerance (numWires : Nat) (state : NpState) (deviceWires : List Nat) :
    (∃ a, applyStateVectorGPU numWires state deviceWires = .ok a) ↔
      (shapeOk state (2 ^ deviceWires.length)
          (getBatchSize state (2 ^ deviceWires.length)) = true ∧
        ∀ r ∈ rowsOf state, |Real.sqrt ((normSq r : ℝ)) - 1| ≤ ((allcloseTol : ℚ) : ℝ)) := by
  rw [applyStateVectorGPU_ok_iff]
  constructor
  · rintro ⟨hs, hn⟩
    refine ⟨hs, ?_⟩
    intro r hr
    rw [normAllOk, List.all_eq_true] at hn
    exact (normWithinTol_iff_sqrt (normSq r) (normSq_nonneg r)).mp (hn r hr)
  · rintro ⟨hs, hn⟩
    refine ⟨hs, ?_⟩
    rw [normAllOk, List.all_eq_true]
    intro r hr
    exact (normWithinTol_iff_sqrt (normSq r) (normSq_nonneg r)).mpr (hn r hr)

/-- C5 counterexample: the one-wire vector (1.000005, 0) has Euclidean norm
1.000005, which is outside the claimed tolerance 1e-6 (second conjunct), yet
`_apply_state_vector_GPU` accepts it and initializes the device state,
because `qml.math.allclose(norm, 1.0, atol=tolerance)` keeps numpy's default
relative tolerance 1e-5 on top of `atol = 1e-6`. -/
theorem C5_counterexample :
    applyStateVectorGPU 1 exNorm [0] = .ok .fullInit ∧
      (1 : ℝ) + ((atol : ℚ) : ℝ) < Real.sqrt ((normSq exRow : ℝ)) := by
  have hnormsq : normSq exRow = (1000005 / 1000000) ^ 2 := by
    norm_num [normSq, exRow]
  have hall : normAllOk exNorm = true := by
    simp only [normAllOk, exNorm, rowsOf, List.all_cons, List.all_nil, Bool.and_true]
    rw [normWithinTol_iff, hnormsq]
    constructor <;> norm_num [allcloseTol, atol, rtol]
  have hshape : shapeOk exNorm 2 (getBatchSize exNorm 2) = true := by decide
  constructor
  · simp only [applyStateVectorGPU]
    rw [if_neg (by simp [hshape]), if_neg (by simp [hall]), if_pos (by decide)]
  · have hcast : ((normSq exRow : ℚ) : ℝ) = ((1000005 : ℝ) / 1000000) ^ 2 := by
      rw [hnormsq]
      push_cast
      norm_num
    rw [hcast, Real.sqrt_sq (by norm_num)]
    norm_num [atol]

/-! ### List lemmas for the adjoint-Jacobian assembly -/

theorem filterMap_enumFrom_getOp (t : Tape) (l : List Int) (n : Nat)
    (h : ∀ i, n ≤ i → i < n + l.length →
      (t.getOp i).isOperation = true ∧ (t.getOp i).isStatePrep = false) :
    (l.enumFrom n).filterMap (fun p =>
      if (t.getOp p.1).isOperation = true ∧ (t.getOp p.1).isStatePrep = false then
        some p.2
      else none) = l := by
  induction l generalizing n with
  | nil => rfl
  | cons a l ih =>
    have hn := h n le_rfl (by simp)
    have e1 : (a :: l).enumFrom n = (n, a) :: l.enumFrom (n + 1) := rfl
    have ihres := ih (n + 1) (fun i h1 h2 => h i (by omega) (by simp at h2 ⊢; omega))
    rw [e1, List.filterMap_cons]
    simp only [hn.1, hn.2, and_self, if_true, ihres]

theorem filteredTp_eq_sorted (t : Tape)
    (h : ∀ i, i < (sortedTrainable t).length →
      (t.getOp i).isOperation = true ∧ (t.getOp i).isStatePrep = false) :
    filteredTp t = sortedTrainable t := by
  have := filterMap_enumFrom_getOp t (sortedTrainable t) 0
    (fun i _ hi => h i (by simpa using hi))
  simpa [filteredTp, List.enum] using this

theorem chunksOfAux_flatten (t : Nat) (ht : 1 ≤ t) :
    ∀ (rows : List (List ℤ)) (fuel : Nat), (∀ r ∈ rows, r.length = t) →
      rows.flatten.length ≤ fuel → chunksOfAux t fuel rows.flatten = rows := by
  intro rows
  induction rows with
  | nil =>
    intro fuel _ _
    cases fuel <;> rfl
  | cons r rs ih =>
    intro fuel hlen hfuel
    have hr : r.length = t := hlen r (List.mem_cons_self r rs)
    obtain ⟨x, xs, rfl⟩ : ∃ x xs, r = x :: xs := by
      cases r with
      | nil =>
        exfalso
        simp only [List.length_nil] at hr
        omega
      | cons x xs => exact ⟨x, xs, rfl⟩
    rw [List.flatten_cons] at hfuel ⊢
    have hfl : ((x :: xs) ++ rs.flatten).length = t + rs.flatten.length := by
      simp [← hr]
      omega
    cases fuel with
    | zero =>
      exfalso
      rw [hfl] at hfuel
      omega
    | succ f =>
      have hstep : chunksOfAux t (f + 1) ((x :: xs) ++ rs.flatten)
          = ((x :: xs) ++ rs.flatten).take t
            :: chunksOfAux t f (((x :: xs) ++ rs.flatten).drop t) := rfl
      rw [hstep, List.take_left' hr, List.drop_left' hr]
      rw [ih f (fun q hq => hlen q (List.mem_cons_of_mem _ hq)) (by rw [hfl] at hfuel; omega)]

theorem flatten_length_of_uniform (t : Nat) (rows : List (List ℤ))
    (h : ∀ r ∈ rows, r.length = t) : rows.flatten.length = rows.length * t := by
  induction rows with
  | nil => simp
  | cons r rs ih =>
    rw [List.flatten_cons, List.length_append, h r (List.mem_cons_self r rs),
      ih (fun q hq => h q (List.mem_cons_of_mem _ hq)), List.length_cons]
    ring

theorem npReshapeRows_flatten (t : Nat) (ht : 1 ≤ t) (rows : List (List ℤ))
    (h : ∀ r ∈ rows, r.length = t) : npReshapeRows rows.flatten t = .ok rows := by
  have hlen := flatten_length_of_uniform t rows h
  have ht0 : ¬ t = 0 := by omega
  rw [npReshapeRows, if_neg ht0, if_pos (by rw [hlen]; exact Nat.mul_mod_left _ _)]
  rw [chunksOf, if_neg ht0, chunksOfAux_flatten t ht rows _ h le_rfl]

theorem pySlice_subset {α : Type} (l : List α) (a b : Nat) : pySlice l a b ⊆ l :=
  fun _ hx => List.drop_subset a l (List.take_subset _ _ hx)

theorem pySlice_length {α : Type} (l : List α) (a b : Nat) (hb : b ≤ l.length) (hab : a ≤ b) :
    (pySlice l a b).length = b - a := by
  simp only [pySlice, List.length_take, List.length_drop]
  omega

theorem foldl_zipWith_length (t : Nat) :
    ∀ (rows : List (List ℤ)) (acc : List ℤ), (∀ r ∈ rows, r.length = t) → acc.length = t →
      (rows.foldl (fun acc r => acc.zipWith (· + ·) r) acc).length = t := by
  intro rows
  induction rows with
  | nil =>
    intro acc _ hacc
    simpa using hacc
  | cons r rs ih =>
    intro acc h hacc
    simp only [List.foldl_cons]
    refine ih _ (fun x hx => h x (List.mem_cons_of_mem _ hx)) ?_
    rw [List.length_zipWith, hacc, h r (List.mem_cons_self _ _)]
    exact Nat.min_self t

theorem sumRows_length (t : Nat) (rows : List (List ℤ)) (h : ∀ r ∈ rows, r.length = t) :
    (sumRows t rows).length = t :=
  foldl_zipWith_length t rows _ h (List.length_replicate t 0)

theorem agg_rhs_length (T : Nat) (jac : List (List ℤ)) (a k : Nat)
    (hjac : ∀ r ∈ jac, r.length = T) (hk : 1 ≤ k) (hle : a + k ≤ jac.length) :
    (if 1 < k then sumRows T (pySlice jac a (a + k))
     else (pySlice jac a (a + k)).flatten).length = T := by
  have hsl : ∀ r ∈ pySlice jac a (a + k), r.length = T :=
    fun r hr => hjac r (pySlice_subset _ _ _ hr)
  by_cases h1 : 1 < k
  · rw [if_pos h1]
    exact sumRows_length T _ hsl
  · rw [if_neg h1]
    have hk1 : k = 1 := by omega
    subst hk1
    have hlen1 : (pySlice jac a (a + 1)).length = 1 := by
      rw [pySlice_length jac a (a + 1) (by omega) (by omega)]
      omega
    cases hsl2 : pySlice jac a (a + 1) with
    | nil => rw [hsl2] at hlen1; simp at hlen1
    | cons r rest =>
      cases rest with
      | cons r2 rest2 => rw [hsl2] at hlen1; simp at hlen1
      | nil =>
        have hmem : r ∈ pySlice jac a (a + 1) := by
          rw [hsl2]
          exact List.mem_cons_self _ _
        simpa using hsl r hmem

theorem aggRows_length (T : Nat) (jac : List (List ℤ)) :
    ∀ (counts : List Nat) (a : Nat), (aggRows T jac a counts).length = counts.length := by
  intro counts
  induction counts with
  | nil => intro a; rfl
  | cons k ks ih =>
    intro a
    simp only [aggRows, List.length_cons, ih (a + k)]

theorem aggRows_row_length (T : Nat) (jac : List (List ℤ))
    (hjac : ∀ r ∈ jac, r.length = T) :
    ∀ (counts : List Nat) (a : Nat), (∀ k ∈ counts, 1 ≤ k) → a + counts.sum ≤ jac.length →
      ∀ r ∈ aggRows T jac a counts, r.length = T := by
  intro counts
  induction counts with
  | nil =>
    intro a _ _ r hr
    cases hr
  | cons k ks ih =>
    intro a hk hle r hr
    have hsum : a + k + ks.sum ≤ jac.length := by
      simp only [List.sum_cons] at hle
      omega
    cases hr with
    | head =>
      exact agg_rhs_length T jac a k hjac (hk k (List.mem_cons_self _ _)) (by omega)
    | tail _ htl =>
      exact ih (a + k) (fun x hx => hk x (List.mem_cons_of_mem _ hx)) hsum r htl

theorem aggRows_get (T : Nat) (jac : List (List ℤ)) :
    ∀ (counts : List Nat) (a idx k : Nat), counts.get? idx = some k →
      (aggRows T jac a counts).get? idx
        = some (if 1 < k then
            sumRows T (pySlice jac (a + sumTake counts idx) (a + sumTake counts idx + k))
          else (pySlice jac (a + sumTake counts idx) (a + sumTake counts idx + k)).flatten) := by
  intro counts
  induction counts with
  | nil =>
    intro a idx k h
    simp at h
  | cons c cs ih =>
    intro a idx k h
    cases idx with
    | zero =>
      rw [List.get?_cons_zero] at h
      injection h with h
      subst h
      simp [aggRows, sumTake]
    | succ i =>
      rw [List.get?_cons_succ] at h
      have hrec := ih (a + c) i k h
      have hoff : a + c + sumTake cs i = a + sumTake (c :: cs) (i + 1) := by
        simp only [sumTake, List.take_succ_cons, List.sum_cons]
        omega
      simp only [aggRows, List.get?_cons_succ]
      rw [hrec, hoff]

theorem buildJacR_eq_agg (T : Nat) (jac : List (List ℤ))
    (hjac : ∀ r ∈ jac, r.length = T) :
    ∀ (counts : List Nat) (a : Nat), (∀ k ∈ counts, 1 ≤ k) → a + counts.sum ≤ jac.length →
      buildJacR T T jac (offsetsFrom a counts) = .ok (aggRows T jac a counts) := by
  intro counts
  induction counts with
  | nil =>
    intro a _ _
    rfl
  | cons k ks ih =>
    intro a hk hle
    have hk1 : 1 ≤ k := hk k (List.mem_cons_self _ _)
    have hsum : a + k + ks.sum ≤ jac.length := by
      simp only [List.sum_cons] at hle
      omega
    obtain ⟨tl, htl⟩ : ∃ tl, offsetsFrom (a + k) ks = (a + k) :: tl := by
      cases ks <;> exact ⟨_, rfl⟩
    have heq : offsetsFrom a (k :: ks) = a :: (a + k) :: tl := by
      rw [offsetsFrom, htl]
    have hba : a + k - a = k := by omega
    have hrhs := agg_rhs_length T jac a k hjac hk1 (by omega)
    have hassign : npAssignRow T (if 1 < k then sumRows T (pySlice jac a (a + k))
        else (pySlice jac a (a + k)).flatten)
        = .ok (if 1 < k then sumRows T (pySlice jac a (a + k))
            else (pySlice jac a (a + k)).flatten) := by
      rw [npAssignRow, if_pos hrhs]

    have hrec : buildJacR T T jac ((a + k) :: tl) = .ok (aggRows T jac (a + k) ks) := by
      rw [← htl]
      exact ih (a + k) (fun x hx => hk x (List.mem_cons_of_mem _ hx)) hsum
    rw [heq, buildJacR, hba, hassign, hrec]
    rfl

/-- The number of serialized term rows is the total of the per-observable
term counts. -/
theorem serialize_length_eq_sum (t : Tape) :
    (serializeObservables t).length
      = (t.measurements.map (fun m => m.terms.length)).sum := by
  rw [serializeObservables, List.length_flatten, List.map_map]
  rfl

/-- Fully-evaluated form of `adjoint_jacobian` in the default unbatched
configuration, under the backend row-length contract and nonempty term
counts. -/
theorem adjoint_jacobian_unbatched (dp : Nat) (sh : Option Nat) (rowFor : Nat → List Int)
    (t : Tape) (ss uds : Bool) (r : Option RetType)
    (hm : check_adjdiff_supported_measurements t.measurements = .ok r)
    (hne : t.trainable_params ≠ [])
    (hops : check_adjdiff_supported_operations t.operations = .ok ())
    (hT : 1 ≤ (tpShiftOf t).length)
    (hwidth : (tpShiftOf t).length = allParamsOf t)
    (hrows : ∀ i ∈ serializeObservables t, (rowFor i).length = (tpShiftOf t).length)
    (hcounts : ∀ m ∈ t.measurements, 1 ≤ m.terms.length) :
    adjoint_jacobian ⟨dp, .flag false, sh⟩ rowFor t ss uds
      = ((if ss then [] else if uds then [] else [.reset, .execute]) ++
          [.serializeObsEff, .serializeOpsEff] ++
          [.backendCall (serializeObservables t) (tpShiftOf t)],
         .ok (.jacobian (aggRows (tpShiftOf t).length
            (backendRows rowFor (serializeObservables t)) 0
            (t.measurements.map (fun m => m.terms.length))))) := by
  have hlen0 : ¬ t.trainable_params.length = 0 := by
    simpa [List.length_eq_zero] using hne
  have hjac : ∀ rr ∈ backendRows rowFor (serializeObservables t),
      rr.length = (tpShiftOf t).length := by
    intro rr hrr
    obtain ⟨i, hi, rfl⟩ := List.mem_map.mp hrr
    exact hrows i hi
  have hflat : npReshapeRows (backendRows rowFor (serializeObservables t)).flatten
      (tpShiftOf t).length = .ok (backendRows rowFor (serializeObservables t)) :=
    npReshapeRows_flatten _ hT _ hjac
  have hcounts' : ∀ k ∈ t.measurements.map (fun m => m.terms.length), 1 ≤ k := by
    intro k hk
    obtain ⟨m, hm2, rfl⟩ := List.mem_map.mp hk
    exact hcounts m hm2
  have hbound : 0 + (t.measurements.map (fun m => m.terms.length)).sum
      ≤ (backendRows rowFor (serializeObservables t)).length := by
    rw [backendRows, List.length_map, serialize_length_eq_sum t]
    omega
  have hbuild := buildJacR_eq_agg (tpShiftOf t).length
    (backendRows rowFor (serializeObservables t)) hjac
    (t.measurements.map (fun m => m.terms.length)) 0 hcounts' hbound
  have hassemble : assembleJac t (backendRows rowFor (serializeObservables t))
      = .ok (.jacobian (aggRows (tpShiftOf t).length
          (backendRows rowFor (serializeObservables t)) 0
          (t.measurements.map (fun m => m.terms.length)))) := by
    rw [assembleJac, hflat, obsOffsets, ← hwidth]
    simp only [hbuild]
  simp only [adjoint_jacobian, hm, hlen0, if_false, hops, dispatchJac, BatchObs.truthy,
    Bool.false_eq_true, hassemble]

/-- C1 counterexample: on the tape `[QubitStateVector, RX]` with both the
state-preparation parameter (tape position 0) and the rotation parameter
(position 1) marked trainable, the filtered trainable list has exactly one
entry, yet `adjoint_jacobian` returns a Jacobian row of width 2: `jac_r` is
allocated with `all_params = 2` columns, `record_tp_rows` is never used, and
the single backend derivative 7 is broadcast into both columns -- the
state-preparation parameter's column is present and even carries the
rotation's derivative, contradicting the claim that such columns never
appear. -/
theorem C1_counterexample :
    (adjoint_jacobian devU rowOne tapeC1 false false).2 = .ok (.jacobian [[7, 7]]) ∧
      (filteredTp tapeC1).length = 1 :=
  ⟨rfl, rfl⟩

/-- C1 (amended): for every tape whose first operation is a state
preparation, with supported measurements, a nonempty trainable set passing
validation, NO state-preparation parameter marked trainable (every trainable
index maps to a non-state-preparation Operation), backend rows of the
contracted length, and at least one term per observable, `adjoint_jacobian`
(unbatched) passes the reverse sweep exactly the filtered trainable positions
shifted down by one, and returns a Jacobian with one row per logical
observable whose columns correspond 1:1 to the filtered trainable-parameter
list (which here is the whole sorted trainable list). -/
theorem C1_amended_filtered_columns (dp : Nat) (sh : Option Nat) (rowFor : Nat → List Int)
    (t : Tape) (ss uds : Bool) (r : Option RetType)
    (hm : check_adjdiff_supported_measurements t.measurements = .ok r)
    (hne : t.trainable_params ≠ [])
    (hops : check_adjdiff_supported_operations t.operations = .ok ())
    (hsp : useSp t = true)
    (hall : ∀ i, i < (sortedTrainable t).length →
      (t.getOp i).isOperation = true ∧ (t.getOp i).isStatePrep = false)
    (hrows : ∀ i ∈ serializeObservables t, (rowFor i).length = (sortedTrainable t).length)
    (hcounts : ∀ m ∈ t.measurements, 1 ≤ m.terms.length) :
    ∃ J,
      adjoint_jacobian ⟨dp, .flag false, sh⟩ rowFor t ss uds
        = ((if ss then [] else if uds then [] else [.reset, .execute]) ++
            [.serializeObsEff, .serializeOpsEff] ++
            [.backendCall (serializeObservables t) ((filteredTp t).map (fun i => i - 1))],
           .ok (.jacobian J)) ∧
      filteredTp t = sortedTrainable t ∧
      J.length = t.measurements.length ∧
      (∀ row ∈ J, row.length = (filteredTp t).length) := by
  have hfe : filteredTp t = sortedTrainable t := filteredTp_eq_sorted t hall
  have htp : tpShiftOf t = (filteredTp t).map (fun i => i - 1) := by
    rw [tpShiftOf, if_pos hsp]
  have hlen1 : (tpShiftOf t).length = (sortedTrainable t).length := by
    rw [htp, List.length_map, hfe]
  have hwidth : (tpShiftOf t).length = allParamsOf t := hlen1
  have hT : 1 ≤ (tpShiftOf t).length := by
    rw [hlen1, sortedTrainable, List.length_insertionSort]
    have : t.trainable_params.length ≠ 0 := by
      simpa [List.length_eq_zero] using hne
    omega
  have hrows' : ∀ i ∈ serializeObservables t, (rowFor i).length = (tpShiftOf t).length := by
    intro i hi
    rw [hlen1]
    exact hrows i hi
  have glue := adjoint_jacobian_unbatched dp sh rowFor t ss uds r hm hne hops hT hwidth
    hrows' hcounts
  refine ⟨aggRows (tpShiftOf t).length (backendRows rowFor (serializeObservables t)) 0
      (t.measurements.map (fun m => m.terms.length)), ?_, hfe, ?_, ?_⟩
  · rw [← htp]
    exact glue
  · rw [aggRows_length, List.length_map]
  · intro row hrow
    have hjac : ∀ rr ∈ backendRows rowFor (serializeObservables t),
        rr.length = (tpShiftOf t).length := by
      intro rr hrr
      obtain ⟨i, hi, rfl⟩ := List.mem_map.mp hrr
      exact hrows' i hi
    have hcounts' : ∀ k ∈ t.measurements.map (fun m => m.terms.length), 1 ≤ k := by
      intro k hk
      obtain ⟨m2, hm2, rfl⟩ := List.mem_map.mp hk
      exact hcounts m2 hm2
    have hbound : 0 + (t.measurements.map (fun m => m.terms.length)).sum
        ≤ (backendRows rowFor (serializeObservables t)).length := by
      rw [backendRows, List.length_map, serialize_length_eq_sum t]
      omega
    have hlr := aggRows_row_length (tpShiftOf t).length _ hjac _ 0 hcounts' hbound row hrow
    rw [hlr, hlen1, ← hfe]

theorem C1_amended_filtered_columns_witness :
    ∃ J, adjoint_jacobian devU rowTwo tapeC1w false false
        = ([.reset, .execute, .serializeObsEff, .serializeOpsEff, .backendCall [0] [0, 1]],
           .ok (.jacobian J)) ∧
      filteredTp tapeC1w = [1, 2] ∧ J.length = 1 ∧ (∀ row ∈ J, row.length = 2) := by
  obtain ⟨J, hJ, hfe, hlen, hrowlen⟩ :=
    C1_amended_filtered_columns 1 none rowTwo tapeC1w false false (some .expectation)
      rfl (List.cons_ne_nil _ _) rfl rfl (fun _ _ => ⟨rfl, rfl⟩) (fun _ _ => rfl)
      (by decide)
  refine ⟨J, hJ.trans (by rfl), hfe.trans (by rfl), hlen.trans (by rfl), ?_⟩
  intro row hrow
  exact (hrowlen row hrow).trans (by rfl)

theorem offsetsFrom_get :
    ∀ (counts : List Nat) (a idx : Nat), idx ≤ counts.length →
      (offsetsFrom a counts).get? idx = some (a + sumTake counts idx) := by
  intro counts
  induction counts with
  | nil =>
    intro a idx h
    have hidx : idx = 0 := by simpa using h
    subst hidx
    simp [offsetsFrom, sumTake]
  | cons c cs ih =>
    intro a idx h
    cases idx with
    | zero => simp [offsetsFrom, sumTake]
    | succ i =>
      simp only [offsetsFrom, List.get?_cons_succ]
      rw [ih (a + c) i (by simpa using h)]
      congr 1
      simp only [sumTake, List.take_succ_cons, List.sum_cons]
      omega

/-- C2: for every tape with supported measurements, a nonempty trainable set
passing validation, no trainable state-preparation parameter (so that the
`jac_r` width equals the contracted row length), backend rows of that uniform
length and at least one term per observable, if the `idx`-th logical
observable expands to `k` serialized terms then the assembled Jacobian has
exactly one row for it: row `idx`, equal to the column-wise sum of the `k`
per-term backend rows over the half-open offsets range starting at
`offsets[idx]` when `k > 1`, and to the single per-term row copied through
unchanged when the range has length 1. -/
theorem C2_hamiltonian_row_aggregation (dp : Nat) (sh : Option Nat)
    (rowFor : Nat → List Int) (t : Tape) (ss uds : Bool) (r : Option RetType)
    (idx : Nat) (m : Measurement)
    (hm : check_adjdiff_supported_measurements t.measurements = .ok r)
    (hne : t.trainable_params ≠ [])
    (hops : check_adjdiff_supported_operations t.operations = .ok ())
    (hT : 1 ≤ (tpShiftOf t).length)
    (hwidth : (tpShiftOf t).length = allParamsOf t)
    (hrows : ∀ i ∈ serializeObservables t, (rowFor i).length = (tpShiftOf t).length)
    (hcounts : ∀ m2 ∈ t.measurements, 1 ≤ m2.terms.length)
    (hidx : t.measurements.get? idx = some m) :
    ∃ J,
      (adjoint_jacobian ⟨dp, .flag false, sh⟩ rowFor t ss uds).2 = .ok (.jacobian J) ∧
      J.length = t.measurements.length ∧
      (obsOffsets t).get? idx
        = some (sumTake (t.measurements.map (fun m2 => m2.terms.length)) idx) ∧
      J.get? idx = some (
        if 1 < m.terms.length then
          sumRows (tpShiftOf t).length
            (pySlice (backendRows rowFor (serializeObservables t))
              (sumTake (t.measurements.map (fun m2 => m2.terms.length)) idx)
              (sumTake (t.measurements.map (fun m2 => m2.terms.length)) idx + m.terms.length))
        else
          (pySlice (backendRows rowFor (serializeObservables t))
            (sumTake (t.measurements.map (fun m2 => m2.terms.length)) idx)
            (sumTake (t.measurements.map (fun m2 => m2.terms.length)) idx
              + m.terms.length)).flatten) := by
  have glue := adjoint_jacobian_unbatched dp sh rowFor t ss uds r hm hne hops hT hwidth
    hrows hcounts
  have hkidx : (t.measurements.map (fun m2 => m2.terms.length)).get? idx
      = some m.terms.length := by
    rw [List.get?_map, hidx]
    rfl
  have hlt : idx < t.measurements.length := by
    obtain ⟨h, _⟩ := List.get?_eq_some.mp hidx
    exact h
  refine ⟨aggRows (tpShiftOf t).length (backendRows rowFor (serializeObservables t)) 0
      (t.measurements.map (fun m2 => m2.terms.length)), ?_, ?_, ?_, ?_⟩
  · rw [glue]
  · rw [aggRows_length, List.length_map]
  · rw [obsOffsets, offsetsFrom_get _ 0 idx (by rw [List.length_map]; omega)]
    congr 1
    omega
  · have := aggRows_get (tpShiftOf t).length (backendRows rowFor (serializeObservables t))
      (t.measurements.map (fun m2 => m2.terms.length)) 0 idx m.terms.length hkidx
    simpa using this

theorem C2_hamiltonian_row_aggregation_witness :
    ∃ J, (adjoint_jacobian devU rowOne tapeC2w false false).2 = .ok (.jacobian J) ∧
      J.length = 2 ∧ (obsOffsets tapeC2w).get? 0 = some 0 ∧ J.get? 0 = some [21] := by
  obtain ⟨J, hJ, hlen, hoff, hget⟩ :=
    C2_hamiltonian_row_aggregation 1 none rowOne tapeC2w false false (some .expectation)
      0 measH3 rfl (List.cons_ne_nil _ _) rfl (by decide) rfl (fun _ _ => rfl)
      (by decide) rfl
  exact ⟨J, hJ, hlen.trans (by rfl), hoff.trans (by rfl), hget.trans (by rfl)⟩

/-! ### Chunking lemmas for the batching dispatch -/

theorem ceilDiv_zero (s : Nat) (hs : 1 ≤ s) : ceilDiv 0 s = 0 := by
  unfold ceilDiv
  exact Nat.div_eq_of_lt (by omega)

theorem ceilDiv_pos_eq (n s : Nat) (hn : 1 ≤ n) (hs : 1 ≤ s) :
    ceilDiv n s = (n - 1) / s + 1 := by
  unfold ceilDiv
  have h : n + s - 1 = (n - 1) + s := by omega
  rw [h, Nat.add_div_right _ hs]

theorem ceilDiv_sub (n s : Nat) (hn : 1 ≤ n) (hs : 1 ≤ s) :
    ceilDiv n s = ceilDiv (n - s) s + 1 := by
  by_cases h : n ≤ s
  · have h0 : n - s = 0 := by omega
    rw [h0, ceilDiv_zero s hs, ceilDiv_pos_eq n s hn hs, Nat.div_eq_of_lt (by omega)]
  · rw [ceilDiv_pos_eq n s hn hs, ceilDiv_pos_eq (n - s) s (by omega) hs]
    have h2 : n - 1 = (n - s - 1) + s := by omega
    rw [h2, Nat.add_div_right _ hs]

theorem ceilDiv_self (n : Nat) (hn : 1 ≤ n) : ceilDiv n n = 1 := by
  rw [ceilDiv_pos_eq n n hn hn, Nat.div_eq_of_lt (by omega)]

theorem pySlice_zero {α : Type} (l : List α) (s : Nat) : pySlice l 0 s = l.take s := by
  simp [pySlice]

theorem pySlice_shift {α : Type} (l : List α) (s i : Nat) :
    pySlice l ((i + 1) * s) ((i + 1) * s + s) = pySlice (l.drop s) (i * s) (i * s + s) := by
  simp only [pySlice, Nat.add_sub_cancel_left, List.drop_drop]
  have h : s + i * s = (i + 1) * s := by ring
  rw [h]

theorem flatten_slices {α : Type} (s : Nat) (hs : 1 ≤ s) :
    ∀ (fuel : Nat) (l : List α), l.length ≤ fuel →
      ((List.range (ceilDiv l.length s)).map (fun i => pySlice l (i * s) (i * s + s))).flatten
        = l := by
  intro fuel
  induction fuel with
  | zero =>
    intro l hl
    have h0 : l = [] := List.length_eq_zero.mp (by omega)
    subst h0
    simp [ceilDiv_zero s hs]
  | succ f ih =>
    intro l hl
    by_cases h0 : l.length = 0
    · have hnil : l = [] := List.length_eq_zero.mp h0
      subst hnil
      simp [ceilDiv_zero s hs]
    · have hn : 1 ≤ l.length := by omega
      rw [ceilDiv_sub l.length s hn hs, List.range_succ_eq_map, List.map_cons,
        List.flatten_cons, List.map_map]
      have hhead : pySlice l (0 * s) (0 * s + s) = l.take s := by
        rw [Nat.zero_mul, Nat.zero_add, pySlice_zero l s]
      have hmap : (List.range (ceilDiv (l.length - s) s)).map
          ((fun i => pySlice l (i * s) (i * s + s)) ∘ Nat.succ)
          = (List.range (ceilDiv (l.length - s) s)).map
              (fun i => pySlice (l.drop s) (i * s) (i * s + s)) := by
        apply List.map_congr_left
        intro i _
        show pySlice l ((i + 1) * s) ((i + 1) * s + s) = _
        exact pySlice_shift l s i
      have hlen2 : (l.drop s).length = l.length - s := by simp
      have hrec := ih (l.drop s) (by rw [hlen2]; omega)
      rw [hlen2] at hrec
      rw [hhead, hmap, hrec]
      exact List.take_append_drop s l

/-- Concatenating the per-chunk kernel rows over the window decomposition
reproduces the unbatched kernel rows. -/
theorem chunks_rows (s : Nat) (hs : 1 ≤ s) (rowFor : Nat → List Int) (obs : List Nat) :
    (List.map (fun ch => backendRows rowFor ch)
        (List.map (fun c => pySlice obs c (c + s))
          (List.map (fun i => i * s) (List.range (ceilDiv obs.length s))))).flatten
      = backendRows rowFor obs := by
  rw [List.map_map, List.map_map]
  have h1 : List.map (((fun ch => backendRows rowFor ch) ∘
        (fun c => pySlice obs c (c + s))) ∘ fun i => i * s)
        (List.range (ceilDiv obs.length s))
      = List.map (List.map rowFor)
          (List.map (fun i => pySlice obs (i * s) (i * s + s))
            (List.range (ceilDiv obs.length s))) := by
    rw [List.map_map]
    rfl
  rw [h1, ← List.map_flatten, flatten_slices s hs obs.length obs le_rfl]
  rfl

/-- `batch_obs=True` on a nonempty observable list dispatches exactly one
batched call covering all observables and yields the same rows as the
unbatched kernel. -/
theorem dispatchJac_flag_true (dp : Nat) (rowFor : Nat → List Int) (obs : List Nat)
    (tp : List Int) (hobs : obs ≠ []) :
    dispatchJac dp (.flag true) rowFor obs tp
      = .ok ([.backendCall obs tp], backendRows rowFor obs) := by
  have hn : 1 ≤ obs.length := List.length_pos.mpr hobs
  have hne0 : ¬ ((obs.length : Int) = 0) := by omega
  have hnlt : ¬ ((obs.length : Int) < 0) := by omega
  simp only [dispatchJac, BatchObs.truthy, if_true]
  rw [chunkStarts, if_neg hne0, if_neg hnlt]
  have htn : (obs.length : Int).toNat = obs.length := Int.toNat_natCast obs.length
  rw [htn, ceilDiv_self obs.length hn]
  have hr1 : List.range 1 = [0] := rfl
  simp [hr1, pySlice, backendRows, List.take_length]

/-- `batch_obs=k` (capped) with at least one device chunks the observable
list into windows of `k * device_count` and, concatenated, yields the same
rows as the unbatched kernel. -/
theorem dispatchJac_cap (dp : Nat) (k : Int) (rowFor : Nat → List Int) (obs : List Nat)
    (tp : List Int) (hdp : 1 ≤ dp) (hk : 1 ≤ k) :
    ∃ effs, dispatchJac dp (.cap k) rowFor obs tp = .ok (effs, backendRows rowFor obs) := by
  have hdpI : (1 : Int) ≤ (dp : Int) := by exact_mod_cast hdp
  have hstep : (1 : Int) ≤ k * (dp : Int) := by nlinarith
  have hne0 : ¬ (k * (dp : Int) = 0) := by omega
  have hnlt : ¬ (k * (dp : Int) < 0) := by omega
  have htruthy : BatchObs.truthy (.cap k) = true := by
    simp only [BatchObs.truthy, bne_iff_ne, ne_eq]
    omega
  have hs1 : 1 ≤ (k * (dp : Int)).toNat := by omega
  refine ⟨List.map (fun ch => AdjEffect.backendCall ch tp)
      (List.map (fun c => pySlice obs c (c + (k * (dp : Int)).toNat))
        (List.map (fun i => i * (k * (dp : Int)).toNat)
          (List.range (ceilDiv obs.length (k * (dp : Int)).toNat)))), ?_⟩
  simp only [dispatchJac, htruthy, if_true]
  rw [chunkStarts, if_neg hne0, if_neg hnlt]
  dsimp only
  rw [chunks_rows (k * (dp : Int)).toNat hs1 rowFor obs]

/-- C3 counterexample: on a tape with an empty observable list (no
measurements) and one trainable parameter, the unbatched configuration
returns an empty Jacobian while the fully-distributed configuration
(`batch_obs=True`) raises `ValueError` from `range(0, 0, 0)` (the batch size
`num_obs = 0` is used as the range step), so the two configurations do not
produce the same result for every tape and observable list. -/
theorem C3_counterexample :
    (adjoint_jacobian devU rowOne tapeC3 false false).2 = .ok (.jacobian []) ∧
      (adjoint_jacobian devB rowOne tapeC3 false false).2
        = .error (.valueError "range() arg 3 must not be zero") :=
  ⟨rfl, rfl⟩

/-- C3 (amended): for every tape with at least one serialized observable,
at least one device, and a positive cap `k`, the value computed by
`adjoint_jacobian` (error or assembled Jacobian: same rows, same row order,
same entries) is identical under the unbatched (`batch_obs=False`), fully
distributed (`batch_obs=True`) and capped (`batch_obs=k`) policies. -/
theorem C3_amended_batch_invariance (dp : Nat) (k : Int) (sh : Option Nat)
    (rowFor : Nat → List Int) (t : Tape) (ss uds : Bool)
    (hobs : serializeObservables t ≠ []) (hdp : 1 ≤ dp) (hk : 1 ≤ k) :
    (adjoint_jacobian ⟨dp, .flag true, sh⟩ rowFor t ss uds).2
        = (adjoint_jacobian ⟨dp, .flag false, sh⟩ rowFor t ss uds).2 ∧
      (adjoint_jacobian ⟨dp, .cap k, sh⟩ rowFor t ss uds).2
        = (adjoint_jacobian ⟨dp, .flag false, sh⟩ rowFor t ss uds).2 := by
  cases hm : check_adjdiff_supported_measurements t.measurements with
  | error e =>
    constructor <;> simp [adjoint_jacobian, hm]
  | ok r =>
    by_cases hlen : t.trainable_params.length = 0
    · constructor <;> simp [adjoint_jacobian, hm, hlen]
    · cases hops : check_adjdiff_supported_operations t.operations with
      | error e =>
        constructor <;> simp [adjoint_jacobian, hm, hlen, hops]
      | ok u =>
        have h0 : dispatchJac dp (.flag false) rowFor (serializeObservables t) (tpShiftOf t)
            = .ok ([.backendCall (serializeObservables t) (tpShiftOf t)],
                backendRows rowFor (serializeObservables t)) := rfl
        have h1 := dispatchJac_flag_true dp rowFor (serializeObservables t) (tpShiftOf t) hobs
        obtain ⟨effs, h2⟩ :=
          dispatchJac_cap dp k rowFor (serializeObservables t) (tpShiftOf t) hdp hk
        constructor <;>
          simp [adjoint_jacobian, hm, hlen, hops, h0, h1, h2]

theorem C3_amended_batch_invariance_witness :
    (adjoint_jacobian devB rowOne tapeC3w false false).2
        = (adjoint_jacobian devU rowOne tapeC3w false false).2 ∧
      (adjoint_jacobian devK rowOne tapeC3w false false).2
        = (adjoint_jacobian devU rowOne tapeC3w false false).2 :=
  C3_amended_batch_invariance 1 1 none rowOne tapeC3w false false (by decide) le_rfl le_rfl

end LGPU
